import Mathlib

/-!
Shallow embedding of the OrientationGame simulation core (src/game.js).
JavaScript numbers are modelled as real numbers; machine randomness
(Math.random) is modelled by passing the four random draws, each in [0,1),
as explicit arguments to round creation.
-/

namespace OrientationGame

/-- World/game constants, from the top of src/game.js. -/
def SURFACE_Y_WORLD : ℝ := 0

def MAX_DEPTH_WORLD : ℝ := -900

def ORIGIN_X_MIN : ℝ := 100

def ORIGIN_X_MAX : ℝ := 900

def TARGET_Y_MIN : ℝ := -500

def TARGET_Y_MAX : ℝ := MAX_DEPTH_WORLD

def TARGET_RADIUS_MIN : ℝ := 5

def TARGET_RADIUS_MAX : ℝ := 20

def TARGET_X_MIN : ℝ := 250

def TARGET_X_MAX : ℝ := 900

def DRILL_COST_PER_METER : ℝ := 300

def ANGLE_MIN : ℝ := -180

def ANGLE_MAX : ℝ := 0

def ANGLE_DEFAULT : ℝ := -90

/-- The state tag of the game: "aim" | "drilling" | "win" | "lose". -/
inductive GState
  | aim
  | drilling
  | win
  | lose
deriving DecidableEq

/-- The mutable game object (class Game in src/game.js). -/
structure Game where
  angle : ℝ
  origin_x : ℝ
  target_x : ℝ
  target_y : ℝ
  target_radius : ℝ
  state : GState
  drill_tip : ℝ × ℝ
  drill_speed_mps : ℝ
  result_point : Option (ℝ × ℝ)
  tries_remaining : ℤ
  drill_path_length : ℝ
  total_cost : ℝ
  accumulated_cost : ℝ

/-- clamp(v, a, b) = Math.max(a, Math.min(b, v)). -/
noncomputable def clamp (v a b : ℝ) : ℝ := max a (min b v)

/-- deg2rad(d) = d * Math.PI / 180. -/
noncomputable def deg2rad (d : ℝ) : ℝ := d * Real.pi / 180

/-- The Euclidean length pattern Math.sqrt(dx*dx + dy*dy) used throughout update. -/
noncomputable def euclid (dx dy : ℝ) : ℝ := Real.sqrt (dx * dx + dy * dy)

/-- Quadratic coefficient a = dx*dx + dy*dy of lineCircleIntersection. -/
def icA (p0 p1 : ℝ × ℝ) : ℝ := (p1.1 - p0.1) * (p1.1 - p0.1) + (p1.2 - p0.2) * (p1.2 - p0.2)

/-- Quadratic coefficient b = 2*(fx*dx + fy*dy) of lineCircleIntersection. -/
def icB (p0 p1 c : ℝ × ℝ) : ℝ :=
  2 * ((p0.1 - c.1) * (p1.1 - p0.1) + (p0.2 - c.2) * (p1.2 - p0.2))

/-- Quadratic coefficient cterm = fx*fx + fy*fy - r*r of lineCircleIntersection. -/
def icC (p0 c : ℝ × ℝ) (r : ℝ) : ℝ :=
  (p0.1 - c.1) * (p0.1 - c.1) + (p0.2 - c.2) * (p0.2 - c.2) - r * r

/-- disc = b*b - 4*a*cterm. -/
def icDisc (p0 p1 c : ℝ × ℝ) (r : ℝ) : ℝ :=
  icB p0 p1 c * icB p0 p1 c - 4 * icA p0 p1 * icC p0 c r

/-- t1 = (-b - sqrt(disc)) / (2*a), the root tested first. -/
noncomputable def icT1 (p0 p1 c : ℝ × ℝ) (r : ℝ) : ℝ :=
  (-icB p0 p1 c - Real.sqrt (icDisc p0 p1 c r)) / (2 * icA p0 p1)

/-- t2 = (-b + sqrt(disc)) / (2*a), the root tested second. -/
noncomputable def icT2 (p0 p1 c : ℝ × ℝ) (r : ℝ) : ℝ :=
  (-icB p0 p1 c + Real.sqrt (icDisc p0 p1 c r)) / (2 * icA p0 p1)

/-- The point [x1 + t*dx, y1 + t*dy] on the parametrized segment. -/
def icPoint (p0 p1 : ℝ × ℝ) (t : ℝ) : ℝ × ℝ :=
  (p0.1 + t * (p1.1 - p0.1), p0.2 + t * (p1.2 - p0.2))

/-- lineCircleIntersection(p0, p1, c, r) from src/game.js lines 72-102.
When the segment is degenerate (a = 0) the source divides by zero: since a = 0
forces dx = dy = 0 and hence b = 0 and disc = 0, both JS roots are 0/0 = NaN,
and NaN fails the `t >= 0.0 && t <= 1.0` test, so the loop accepts no root and
the routine returns no hit.  That behaviour is modelled by the a = 0 branch. -/
noncomputable def lineCircleIntersection (p0 p1 c : ℝ × ℝ) (r : ℝ) : Option (ℝ × ℝ) :=
  if icDisc p0 p1 c r < 0 then none
  else if icA p0 p1 = 0 then none
  else if 0 ≤ icT1 p0 p1 c r ∧ icT1 p0 p1 c r ≤ 1 then
    some (icPoint p0 p1 (icT1 p0 p1 c r))
  else if 0 ≤ icT2 p0 p1 c r ∧ icT2 p0 p1 c r ≤ 1 then
    some (icPoint p0 p1 (icT2 p0 p1 c r))
  else none

/-- Game.resetRound (src/game.js lines 112-125); r1..r4 are the four
Math.random() draws, in call order.  Note that the source does not touch
`this.angle` here. -/
def resetRound (g : Game) (r1 r2 r3 r4 : ℝ) : Game :=
  let ox := r1 * (ORIGIN_X_MAX - ORIGIN_X_MIN) + ORIGIN_X_MIN
  { g with
    origin_x := ox
    target_x := r2 * (TARGET_X_MAX - TARGET_X_MIN) + TARGET_X_MIN
    target_y := r3 * (TARGET_Y_MAX - TARGET_Y_MIN) + TARGET_Y_MIN
    target_radius := r4 * (TARGET_RADIUS_MAX - TARGET_RADIUS_MIN) + TARGET_RADIUS_MIN
    state := GState.aim
    drill_tip := (ox, SURFACE_Y_WORLD)
    drill_speed_mps := 900
    result_point := none
    tries_remaining := 3
    drill_path_length := 0
    total_cost := 0
    accumulated_cost := 0 }

/-- Game.startDrill (src/game.js lines 131-137): a silent no-op outside "aim". -/
def startDrill (g : Game) : Game :=
  if g.state = GState.aim then
    { g with
      state := GState.drilling
      drill_tip := (g.origin_x, SURFACE_Y_WORLD)
      result_point := none
      drill_path_length := 0 }
  else g

/-- The candidate next tip [nx, ny] computed at the top of Game.update. -/
noncomputable def updNext (g : Game) (dt : ℝ) : ℝ × ℝ :=
  (g.drill_tip.1 + Real.cos (deg2rad g.angle) * (g.drill_speed_mps * dt),
   g.drill_tip.2 + Real.sin (deg2rad g.angle) * (g.drill_speed_mps * dt))

/-- The `if (hit)` branch of Game.update (src/game.js lines 156-167). -/
noncomputable def winStep (g : Game) (ipt : ℝ × ℝ) : Game :=
  let seg := euclid (ipt.1 - g.drill_tip.1) (ipt.2 - g.drill_tip.2)
  { g with
    drill_path_length := g.drill_path_length + seg
    drill_tip := ipt
    state := GState.win
    result_point := some ipt
    total_cost := (g.drill_path_length + seg) * DRILL_COST_PER_METER
    accumulated_cost := g.accumulated_cost + (g.drill_path_length + seg) * DRILL_COST_PER_METER }

/-- The no-hit tail of Game.update (src/game.js lines 169-181): take the full
step, then check the depth/lateral bounds on the stepped endpoint. -/
noncomputable def missStep (g : Game) (n : ℝ × ℝ) : Game :=
  let seg := euclid (n.1 - g.drill_tip.1) (n.2 - g.drill_tip.2)
  if n.2 ≤ MAX_DEPTH_WORLD ∨ n.1 > 1100 then
    { g with
      drill_path_length := g.drill_path_length + seg
      drill_tip := n
      total_cost := (g.drill_path_length + seg) * DRILL_COST_PER_METER
      accumulated_cost := g.accumulated_cost + (g.drill_path_length + seg) * DRILL_COST_PER_METER
      state := GState.lose
      result_point := none
      tries_remaining := g.tries_remaining - 1 }
  else
    { g with
      drill_path_length := g.drill_path_length + seg
      drill_tip := n }

/-- Game.update (src/game.js lines 139-182). -/
noncomputable def update (g : Game) (dt : ℝ) : Game :=
  if g.state = GState.drilling then
    match lineCircleIntersection g.drill_tip (updNext g dt)
        (g.target_x, g.target_y) g.target_radius with
    | some ipt => winStep g ipt
    | none => missStep g (updNext g dt)
  else g

/-- ArrowLeft keydown handler (src/game.js lines 709-710): only in "aim". -/
noncomputable def arrowLeft (g : Game) : Game :=
  if g.state = GState.aim then
    { g with angle := clamp (g.angle - 1) ANGLE_MIN ANGLE_MAX }
  else g

/-- ArrowRight keydown handler (src/game.js lines 711-712): only in "aim". -/
noncomputable def arrowRight (g : Game) : Game :=
  if g.state = GState.aim then
    { g with angle := clamp (g.angle + 1) ANGLE_MIN ANGLE_MAX }
  else g

/-- Space keydown handler / DRILL button (src/game.js lines 716-722 and
687-693): start drilling from "aim", or resume aiming from "lose" when
tries remain; otherwise nothing. -/
def spaceKey (g : Game) : Game :=
  if g.state = GState.aim then startDrill g
  else if g.state = GState.lose ∧ 0 < g.tries_remaining then
    { g with state := GState.aim }
  else g

/-- N keydown handler / NEW ROUND button (src/game.js lines 723-726 and
695-699): resetRound, accepted in "win", "lose" or "aim" only. -/
def newRoundKey (g : Game) (r1 r2 r3 r4 : ℝ) : Game :=
  if g.state = GState.win ∨ g.state = GState.lose ∨ g.state = GState.aim then
    resetRound g r1 r2 r3 r4
  else g

/-- The state built by the Game constructor before it calls resetRound
(src/game.js lines 106-110): angle = ANGLE_DEFAULT, origin_x = 0; every other
field is immediately overwritten by resetRound, so their values here are
irrelevant placeholders. -/
def initial : Game :=
  { angle := ANGLE_DEFAULT
    origin_x := 0
    target_x := 0
    target_y := 0
    target_radius := 0
    state := GState.aim
    drill_tip := (0, 0)
    drill_speed_mps := 0
    result_point := none
    tries_remaining := 0
    drill_path_length := 0
    total_cost := 0
    accumulated_cost := 0 }

/-- `new Game()`: the constructor followed by its resetRound call. -/
def mkGame (r1 r2 r3 r4 : ℝ) : Game := resetRound initial r1 r2 r3 r4

/-- One external interaction with the game object. -/
inductive Act
  | upd (dt : ℝ)
  | space
  | left
  | right
  | reset (r1 r2 r3 r4 : ℝ)

/-- Apply one interaction. -/
noncomputable def applyAct (g : Game) : Act → Game
  | .upd dt => update g dt
  | .space => spaceKey g
  | .left => arrowLeft g
  | .right => arrowRight g
  | .reset r1 r2 r3 r4 => newRoundKey g r1 r2 r3 r4

/-- Apply a list of interactions, oldest first. -/
noncomputable def run (g : Game) (acts : List Act) : Game := acts.foldl applyAct g

/-- Whether an interaction is the new-round command. -/
def isReset : Act → Bool
  | .reset _ _ _ _ => true
  | _ => false

/-- The per-attempt costs booked along a list of interactions: whenever an
interaction completes an attempt (a transition out of "drilling" into "win"
or "lose"), the attempt's final path length times the cost constant is
recorded. -/
noncomputable def attemptCosts (g : Game) : List Act → List ℝ
  | [] => []
  | a :: rest =>
      (if g.state = GState.drilling ∧
          ((applyAct g a).state = GState.win ∨ (applyAct g a).state = GState.lose)
       then [(applyAct g a).drill_path_length * DRILL_COST_PER_METER] else []) ++
      attemptCosts (applyAct g a) rest

/-- The states reachable from a fresh `new Game()` by any interleaving of
frame updates and input commands; the Math.random() draws always lie
in [0, 1). -/
inductive Reachable : Game → Prop
  | init (r1 r2 r3 r4 : ℝ) (h1 : 0 ≤ r1) (h2 : r1 < 1) (h3 : 0 ≤ r2) (h4 : r2 < 1)
      (h5 : 0 ≤ r3) (h6 : r3 < 1) (h7 : 0 ≤ r4) (h8 : r4 < 1) :
      Reachable (mkGame r1 r2 r3 r4)
  | upd (g : Game) (dt : ℝ) (hg : Reachable g) : Reachable (update g dt)
  | space (g : Game) (hg : Reachable g) : Reachable (spaceKey g)
  | left (g : Game) (hg : Reachable g) : Reachable (arrowLeft g)
  | right (g : Game) (hg : Reachable g) : Reachable (arrowRight g)
  | reset (g : Game) (r1 r2 r3 r4 : ℝ) (hg : Reachable g)
      (h1 : 0 ≤ r1) (h2 : r1 < 1) (h3 : 0 ≤ r2) (h4 : r2 < 1)
      (h5 : 0 ≤ r3) (h6 : r3 < 1) (h7 : 0 ≤ r4) (h8 : r4 < 1) :
      Reachable (newRoundKey g r1 r2 r3 r4)

/-- The game state after n frame updates with per-frame deltas dts. -/
noncomputable def iterUpd (g : Game) (dts : ℕ → ℝ) : ℕ → Game
  | 0 => g
  | n + 1 => update (iterUpd g dts n) (dts n)

/-- Partial sum of the first n frame deltas. -/
def sumTo (dts : ℕ → ℝ) (n : ℕ) : ℝ := Finset.sum (Finset.range n) (fun i => dts i)

/-- Shorthand for the intersection query performed by Game.update. -/
noncomputable def lciOf (g : Game) (dt : ℝ) : Option (ℝ × ℝ) :=
  lineCircleIntersection g.drill_tip (updNext g dt) (g.target_x, g.target_y) g.target_radius

/-- A concrete segment start used to exercise the intersection routine. -/
def w1p0 : ℝ × ℝ := (0, 0)

/-- A concrete segment end used to exercise the intersection routine. -/
def w1p1 : ℝ × ℝ := (0, 2)

/-- A concrete circle center used to exercise the intersection routine. -/
def w1c : ℝ × ℝ := (0, 1)

/-- A concrete mid-drilling state aimed straight down past the target,
about to cross the maximum depth bound. -/
def gW7 : Game :=
  { angle := -90
    origin_x := 500
    target_x := 250
    target_y := -700
    target_radius := 10
    state := GState.drilling
    drill_tip := (500, 0)
    drill_speed_mps := 900
    result_point := none
    tries_remaining := 3
    drill_path_length := 0
    total_cost := 0
    accumulated_cost := 0 }

/-- A concrete state in the "drilling" tag, used to exercise command guards. -/
def gW8 : Game := { initial with state := GState.drilling }

/-- A concrete "lose" state with no tries left. -/
def gW8lose : Game := { initial with state := GState.lose, tries_remaining := 0 }

/-- A concrete mid-drilling state whose very next step hits its target circle
(the circle passes through the drill tip itself, so the first root is t = 0). -/
def g9 : Game :=
  { angle := -90
    origin_x := 500
    target_x := 500
    target_y := -700
    target_radius := 700
    state := GState.drilling
    drill_tip := (500, 0)
    drill_speed_mps := 900
    result_point := none
    tries_remaining := 3
    drill_path_length := 0
    total_cost := 0
    accumulated_cost := 0 }

/-- A concrete aim state with angle exactly -180: in-range round parameters,
standard speed.  Drilling from here moves the tip straight left forever. -/
def gCE : Game :=
  { angle := -180
    origin_x := 500
    target_x := 250
    target_y := -700
    target_radius := 10
    state := GState.aim
    drill_tip := (500, 0)
    drill_speed_mps := 900
    result_point := none
    tries_remaining := 3
    drill_path_length := 0
    total_cost := 0
    accumulated_cost := 0 }

/-- The same aim state but pointed straight down. -/
def gA4 : Game := { gCE with angle := -90 }

/- ----------------- helper lemmas ----------------- -/

theorem sumTo_zero (dts : ℕ → ℝ) : sumTo dts 0 = 0 := by
  simp [sumTo]

theorem sumTo_succ (dts : ℕ → ℝ) (n : ℕ) : sumTo dts (n + 1) = sumTo dts n + dts n := by
  simp [sumTo, Finset.sum_range_succ]

theorem euclid_nonneg (dx dy : ℝ) : 0 ≤ euclid dx dy := Real.sqrt_nonneg _

theorem euclid_zero : euclid 0 0 = 0 := by
  simp [euclid]

/-- A degenerate segment has quadratic coefficient a = 0 and b = 0. -/
theorem icA_self (p : ℝ × ℝ) : icA p p = 0 := by
  simp [icA]

theorem icB_self (p c : ℝ × ℝ) : icB p p c = 0 := by
  simp [icB]

/-- A nondegenerate segment has a > 0. -/
theorem icA_pos (p0 p1 : ℝ × ℝ) (h : p0 ≠ p1) : 0 < icA p0 p1 := by
  have hne : p1.1 - p0.1 ≠ 0 ∨ p1.2 - p0.2 ≠ 0 := by
    by_contra hc
    push_neg at hc
    exact h (Prod.ext (by linarith [hc.1]) (by linarith [hc.2]))
  rw [icA]
  rcases hne with h1 | h1
  · nlinarith [mul_self_pos.mpr h1, mul_self_nonneg (p1.2 - p0.2)]
  · nlinarith [mul_self_pos.mpr h1, mul_self_nonneg (p1.1 - p0.1)]

/-- The smaller-root solution of the quadratic, abstractly. -/
theorem quadRootNeg (a b c s t : ℝ) (hA : a ≠ 0) (hs : s ^ 2 = b * b - 4 * a * c)
    (ht : 2 * a * t = -b - s) : a * t ^ 2 + b * t + c = 0 := by
  have h4 : 4 * a * (a * t ^ 2 + b * t + c) = 0 := by
    linear_combination (2 * a * t + b - s) * ht + hs
  have h4a : (4 : ℝ) * a ≠ 0 := mul_ne_zero (by norm_num) hA
  exact (mul_eq_zero.mp h4).resolve_left h4a

/-- The larger-root solution of the quadratic, abstractly. -/
theorem quadRootPos (a b c s t : ℝ) (hA : a ≠ 0) (hs : s ^ 2 = b * b - 4 * a * c)
    (ht : 2 * a * t = -b + s) : a * t ^ 2 + b * t + c = 0 := by
  have h4 : 4 * a * (a * t ^ 2 + b * t + c) = 0 := by
    linear_combination (2 * a * t + b + s) * ht + hs
  have h4a : (4 : ℝ) * a ≠ 0 := mul_ne_zero (by norm_num) hA
  exact (mul_eq_zero.mp h4).resolve_left h4a

/-- t1 is a root of the quadratic when a ≠ 0 and the discriminant is
nonnegative. -/
theorem icT1_root (p0 p1 c : ℝ × ℝ) (r : ℝ) (hA : icA p0 p1 ≠ 0)
    (hD : 0 ≤ icDisc p0 p1 c r) :
    icA p0 p1 * icT1 p0 p1 c r ^ 2 + icB p0 p1 c * icT1 p0 p1 c r + icC p0 c r = 0 := by
  have hs : Real.sqrt (icDisc p0 p1 c r) ^ 2 = icDisc p0 p1 c r := Real.sq_sqrt hD
  rw [icDisc] at hs
  refine quadRootNeg _ _ _ (Real.sqrt (icDisc p0 p1 c r)) _ hA hs ?_
  rw [icT1]
  field_simp

/-- t2 is a root of the quadratic when a ≠ 0 and the discriminant is
nonnegative. -/
theorem icT2_root (p0 p1 c : ℝ × ℝ) (r : ℝ) (hA : icA p0 p1 ≠ 0)
    (hD : 0 ≤ icDisc p0 p1 c r) :
    icA p0 p1 * icT2 p0 p1 c r ^ 2 + icB p0 p1 c * icT2 p0 p1 c r + icC p0 c r = 0 := by
  have hs : Real.sqrt (icDisc p0 p1 c r) ^ 2 = icDisc p0 p1 c r := Real.sq_sqrt hD
  rw [icDisc] at hs
  refine quadRootPos _ _ _ (Real.sqrt (icDisc p0 p1 c r)) _ hA hs ?_
  rw [icT2]
  field_simp

/-- Any root of the quadratic parametrization lies exactly on the circle. -/
theorem icPoint_on_circle (p0 p1 c : ℝ × ℝ) (r t : ℝ)
    (ht : icA p0 p1 * t ^ 2 + icB p0 p1 c * t + icC p0 c r = 0) :
    ((icPoint p0 p1 t).1 - c.1) ^ 2 + ((icPoint p0 p1 t).2 - c.2) ^ 2 = r ^ 2 := by
  simp only [icA, icB, icC, icPoint] at *
  nlinarith [ht]

/-- The two roots are ordered: t1 ≤ t2 for a nondegenerate segment. -/
theorem icT1_le_icT2 (p0 p1 c : ℝ × ℝ) (r : ℝ) (h : p0 ≠ p1) :
    icT1 p0 p1 c r ≤ icT2 p0 p1 c r := by
  have hA := icA_pos p0 p1 h
  rw [icT1, icT2]
  apply div_le_div_of_nonneg_right _ (by linarith)
  · have := Real.sqrt_nonneg (icDisc p0 p1 c r)
    linarith

/-- Inversion for a reported hit: the returned point is some root point with
parameter in [0,1], the coefficient a is nonzero and the discriminant is
nonnegative. -/
theorem lci_some (p0 p1 c : ℝ × ℝ) (r : ℝ) (ipt : ℝ × ℝ)
    (h : lineCircleIntersection p0 p1 c r = some ipt) :
    icA p0 p1 ≠ 0 ∧ 0 ≤ icDisc p0 p1 c r ∧
    ∃ t, 0 ≤ t ∧ t ≤ 1 ∧
      icA p0 p1 * t ^ 2 + icB p0 p1 c * t + icC p0 c r = 0 ∧
      ipt = icPoint p0 p1 t := by
  rw [lineCircleIntersection] at h
  split at h
  · exact absurd h (by simp)
  · rename_i hD
    split at h
    · exact absurd h (by simp)
    · rename_i hA
      push_neg at hD
      split at h
      · rename_i ht1
        refine ⟨hA, hD, icT1 p0 p1 c r, ht1.1, ht1.2, icT1_root p0 p1 c r hA hD, ?_⟩
        exact (Option.some_injective _ h).symm
      · split at h
        · rename_i ht2
          refine ⟨hA, hD, icT2 p0 p1 c r, ht2.1, ht2.2, icT2_root p0 p1 c r hA hD, ?_⟩
          exact (Option.some_injective _ h).symm
        · exact absurd h (by simp)

/-- Case analysis of Game.update: either not drilling (no-op), or a hit
(winStep), or no hit (missStep on the stepped endpoint). -/
theorem update_cases (g : Game) (dt : ℝ) :
    (g.state ≠ GState.drilling ∧ update g dt = g)
  ∨ (g.state = GState.drilling ∧ ∃ ipt, lciOf g dt = some ipt ∧ update g dt = winStep g ipt)
  ∨ (g.state = GState.drilling ∧ lciOf g dt = none ∧
      update g dt = missStep g (updNext g dt)) := by
  by_cases h : g.state = GState.drilling
  · cases hl : lciOf g dt with
    | some ipt =>
        refine Or.inr (Or.inl ⟨h, ipt, rfl, ?_⟩)
        rw [update, if_pos h]
        rw [lciOf] at hl
        rw [hl]
    | none =>
        refine Or.inr (Or.inr ⟨h, rfl, ?_⟩)
        rw [update, if_pos h]
        rw [lciOf] at hl
        rw [hl]
  · exact Or.inl ⟨h, by rw [update, if_neg h]⟩

theorem update_not_drilling (g : Game) (dt : ℝ) (h : g.state ≠ GState.drilling) :
    update g dt = g := by
  rw [update, if_neg h]

/-- The crossing branch of the no-hit tail (src/game.js lines 175-181). -/
theorem missStep_cross (g : Game) (n : ℝ × ℝ)
    (h : n.2 ≤ MAX_DEPTH_WORLD ∨ n.1 > 1100) :
    missStep g n =
      { g with
        drill_path_length := g.drill_path_length + euclid (n.1 - g.drill_tip.1) (n.2 - g.drill_tip.2)
        drill_tip := n
        total_cost := (g.drill_path_length + euclid (n.1 - g.drill_tip.1) (n.2 - g.drill_tip.2)) * DRILL_COST_PER_METER
        accumulated_cost := g.accumulated_cost + (g.drill_path_length + euclid (n.1 - g.drill_tip.1) (n.2 - g.drill_tip.2)) * DRILL_COST_PER_METER
        state := GState.lose
        result_point := none
        tries_remaining := g.tries_remaining - 1 } := by
  rw [missStep, if_pos h]

/-- The in-bounds branch of the no-hit tail (src/game.js lines 169-174). -/
theorem missStep_stay (g : Game) (n : ℝ × ℝ)
    (h : ¬(n.2 ≤ MAX_DEPTH_WORLD ∨ n.1 > 1100)) :
    missStep g n =
      { g with
        drill_path_length := g.drill_path_length + euclid (n.1 - g.drill_tip.1) (n.2 - g.drill_tip.2)
        drill_tip := n } := by
  rw [missStep, if_neg h]

/-- The master invariant holding in every reachable state. -/
structure Inv (g : Game) : Prop where
  tries_nonneg : 0 ≤ g.tries_remaining
  tries_pos : (g.state = GState.aim ∨ g.state = GState.drilling) → 1 ≤ g.tries_remaining
  radius_pos : 0 < g.target_radius
  origin_lb : 100 ≤ g.origin_x
  origin_ub : g.origin_x ≤ 900
  tip_bounds : g.state = GState.drilling → MAX_DEPTH_WORLD < g.drill_tip.2 ∧ g.drill_tip.1 ≤ 1100
  result_none : g.result_point = none ↔ g.state ≠ GState.win
  win_result : g.state = GState.win → g.result_point = some g.drill_tip ∧
      (g.drill_tip.1 - g.target_x) ^ 2 + (g.drill_tip.2 - g.target_y) ^ 2 = g.target_radius ^ 2
  speed_eq : g.drill_speed_mps = 900
  path_nonneg : 0 ≤ g.drill_path_length

theorem inv_resetRound (g : Game) (r1 r2 r3 r4 : ℝ)
    (h1 : 0 ≤ r1) (h2 : r1 < 1) (h7 : 0 ≤ r4) (_h8 : r4 < 1) :
    Inv (resetRound g r1 r2 r3 r4) := by
  refine ⟨?_, ?_, ?_, ?_, ?_, ?_, ?_, ?_, ?_, ?_⟩
  · norm_num [resetRound]
  · intro _; norm_num [resetRound]
  · simp only [resetRound, TARGET_RADIUS_MIN, TARGET_RADIUS_MAX]
    nlinarith
  · simp only [resetRound, ORIGIN_X_MIN, ORIGIN_X_MAX]
    nlinarith
  · simp only [resetRound, ORIGIN_X_MIN, ORIGIN_X_MAX]
    nlinarith
  · intro h
    simp [resetRound] at h
  · simp [resetRound]
  · intro h
    simp [resetRound] at h
  · simp [resetRound]
  · norm_num [resetRound]

theorem inv_startDrill (g : Game) (hg : Inv g) : Inv (startDrill g) := by
  by_cases h : g.state = GState.aim
  · rw [startDrill, if_pos h]
    refine ⟨hg.tries_nonneg, ?_, hg.radius_pos, hg.origin_lb, hg.origin_ub, ?_, ?_, ?_,
      hg.speed_eq, le_refl 0⟩
    · intro _; exact hg.tries_pos (Or.inl h)
    · intro _
      constructor
      · norm_num [SURFACE_Y_WORLD, MAX_DEPTH_WORLD]
      · have := hg.origin_ub; simp; linarith
    · simp
    · intro hw; simp at hw
  · rw [startDrill, if_neg h]
    exact hg

theorem inv_spaceKey (g : Game) (hg : Inv g) : Inv (spaceKey g) := by
  by_cases h1 : g.state = GState.aim
  · rw [spaceKey, if_pos h1]
    exact inv_startDrill g hg
  · rw [spaceKey, if_neg h1]
    by_cases h2 : g.state = GState.lose ∧ 0 < g.tries_remaining
    · rw [if_pos h2]
      refine ⟨hg.tries_nonneg, ?_, hg.radius_pos, hg.origin_lb, hg.origin_ub, ?_, ?_, ?_,
        hg.speed_eq, hg.path_nonneg⟩
      · intro _
        have := h2.2
        show 1 ≤ g.tries_remaining
        omega
      · intro hd; simp at hd
      · have := hg.result_none
        simp only [h2.1] at this
        simp [this]
      · intro hw; simp at hw
    · rw [if_neg h2]
      exact hg

theorem inv_arrowLeft (g : Game) (hg : Inv g) : Inv (arrowLeft g) := by
  rw [arrowLeft]
  split
  · exact ⟨hg.tries_nonneg, hg.tries_pos, hg.radius_pos, hg.origin_lb, hg.origin_ub,
      hg.tip_bounds, hg.result_none, hg.win_result, hg.speed_eq, hg.path_nonneg⟩
  · exact hg

theorem inv_arrowRight (g : Game) (hg : Inv g) : Inv (arrowRight g) := by
  rw [arrowRight]
  split
  · exact ⟨hg.tries_nonneg, hg.tries_pos, hg.radius_pos, hg.origin_lb, hg.origin_ub,
      hg.tip_bounds, hg.result_none, hg.win_result, hg.speed_eq, hg.path_nonneg⟩
  · exact hg

theorem inv_newRoundKey (g : Game) (r1 r2 r3 r4 : ℝ) (hg : Inv g)
    (h1 : 0 ≤ r1) (h2 : r1 < 1) (h7 : 0 ≤ r4) (h8 : r4 < 1) :
    Inv (newRoundKey g r1 r2 r3 r4) := by
  rw [newRoundKey]
  split
  · exact inv_resetRound g r1 r2 r3 r4 h1 h2 h7 h8
  · exact hg

theorem inv_update (g : Game) (dt : ℝ) (hg : Inv g) : Inv (update g dt) := by
  rcases update_cases g dt with ⟨_, he⟩ | ⟨hs, ipt, hl, he⟩ | ⟨hs, hl, he⟩
  · rw [he]; exact hg
  · rw [he]
    obtain ⟨hA, hD, t, _, _, hroot, hipt⟩ := lci_some _ _ _ _ _ hl
    have hcirc := icPoint_on_circle _ _ _ _ _ hroot
    rw [← hipt] at hcirc
    refine ⟨?_, ?_, ?_, ?_, ?_, ?_, ?_, ?_, ?_, ?_⟩
    · simpa [winStep] using hg.tries_nonneg
    · intro hst; simp [winStep] at hst
    · simpa [winStep] using hg.radius_pos
    · simpa [winStep] using hg.origin_lb
    · simpa [winStep] using hg.origin_ub
    · intro hst; simp [winStep] at hst
    · simp [winStep]
    · intro _
      constructor
      · simp [winStep]
      · simpa [winStep] using hcirc
    · simpa [winStep] using hg.speed_eq
    · have h0 := hg.path_nonneg
      have h1 := euclid_nonneg (ipt.1 - g.drill_tip.1) (ipt.2 - g.drill_tip.2)
      simp only [winStep]
      linarith
  · rw [he]
    by_cases hb : (updNext g dt).2 ≤ MAX_DEPTH_WORLD ∨ (updNext g dt).1 > 1100
    · rw [missStep_cross _ _ hb]
      have htr := hg.tries_pos (Or.inr hs)
      refine ⟨?_, ?_, ?_, ?_, ?_, ?_, ?_, ?_, ?_, ?_⟩
      · simp only []; omega
      · intro hst; simp at hst
      · exact hg.radius_pos
      · exact hg.origin_lb
      · exact hg.origin_ub
      · intro hst; simp at hst
      · simp
      · intro hw; simp at hw
      · exact hg.speed_eq
      · have h0 := hg.path_nonneg
        have h1 := euclid_nonneg ((updNext g dt).1 - g.drill_tip.1) ((updNext g dt).2 - g.drill_tip.2)
        simp only []
        linarith
    · rw [missStep_stay _ _ hb]
      push_neg at hb
      refine ⟨hg.tries_nonneg, ?_, hg.radius_pos, hg.origin_lb, hg.origin_ub, ?_, ?_, ?_,
        hg.speed_eq, ?_⟩
      · intro _; exact hg.tries_pos (Or.inr hs)
      · intro _
        exact ⟨by simpa using hb.1, by simpa using hb.2⟩
      · have := hg.result_none
        simpa using this
      · intro hw
        simp only [] at hw
        rw [hs] at hw
        simp at hw
      · have h0 := hg.path_nonneg
        have h1 := euclid_nonneg ((updNext g dt).1 - g.drill_tip.1) ((updNext g dt).2 - g.drill_tip.2)
        simp only []
        linarith

/-- Every reachable state satisfies the master invariant. -/
theorem reachable_inv (g : Game) (hg : Reachable g) : Inv g := by
  induction hg with
  | init r1 r2 r3 r4 h1 h2 h3 h4 h5 h6 h7 h8 => exact inv_resetRound initial r1 r2 r3 r4 h1 h2 h7 h8
  | upd g dt _ ih => exact inv_update g dt ih
  | space g _ ih => exact inv_spaceKey g ih
  | left g _ ih => exact inv_arrowLeft g ih
  | right g _ ih => exact inv_arrowRight g ih
  | reset g r1 r2 r3 r4 _ h1 h2 h3 h4 h5 h6 h7 h8 ih =>
      exact inv_newRoundKey g r1 r2 r3 r4 ih h1 h2 h7 h8

/-- Fields never touched by Game.update. -/
theorem update_const_fields (g : Game) (dt : ℝ) :
    (update g dt).angle = g.angle ∧ (update g dt).origin_x = g.origin_x ∧
    (update g dt).target_x = g.target_x ∧ (update g dt).target_y = g.target_y ∧
    (update g dt).target_radius = g.target_radius ∧
    (update g dt).drill_speed_mps = g.drill_speed_mps := by
  rcases update_cases g dt with ⟨_, h⟩ | ⟨_, ipt, _, h⟩ | ⟨_, _, h⟩
  · rw [h]
    exact ⟨rfl, rfl, rfl, rfl, rfl, rfl⟩
  · rw [h, winStep]
    exact ⟨rfl, rfl, rfl, rfl, rfl, rfl⟩
  · rw [h, missStep]
    split
    · exact ⟨rfl, rfl, rfl, rfl, rfl, rfl⟩
    · exact ⟨rfl, rfl, rfl, rfl, rfl, rfl⟩

theorem lci_disc_neg (p0 p1 c : ℝ × ℝ) (r : ℝ) (h : icDisc p0 p1 c r < 0) :
    lineCircleIntersection p0 p1 c r = none := by
  rw [lineCircleIntersection, if_pos h]

theorem lci_hit_t1 (p0 p1 c : ℝ × ℝ) (r : ℝ) (hD : ¬icDisc p0 p1 c r < 0)
    (hA : ¬icA p0 p1 = 0) (ht : 0 ≤ icT1 p0 p1 c r ∧ icT1 p0 p1 c r ≤ 1) :
    lineCircleIntersection p0 p1 c r = some (icPoint p0 p1 (icT1 p0 p1 c r)) := by
  rw [lineCircleIntersection, if_neg hD, if_neg hA, if_pos ht]

theorem lci_hit_t2 (p0 p1 c : ℝ × ℝ) (r : ℝ) (hD : ¬icDisc p0 p1 c r < 0)
    (hA : ¬icA p0 p1 = 0) (hn1 : ¬(0 ≤ icT1 p0 p1 c r ∧ icT1 p0 p1 c r ≤ 1))
    (ht : 0 ≤ icT2 p0 p1 c r ∧ icT2 p0 p1 c r ≤ 1) :
    lineCircleIntersection p0 p1 c r = some (icPoint p0 p1 (icT2 p0 p1 c r)) := by
  rw [lineCircleIntersection, if_neg hD, if_neg hA, if_neg hn1, if_pos ht]

theorem lci_no_root (p0 p1 c : ℝ × ℝ) (r : ℝ)
    (hn1 : ¬(0 ≤ icT1 p0 p1 c r ∧ icT1 p0 p1 c r ≤ 1))
    (hn2 : ¬(0 ≤ icT2 p0 p1 c r ∧ icT2 p0 p1 c r ≤ 1)) :
    lineCircleIntersection p0 p1 c r = none := by
  by_cases hD : icDisc p0 p1 c r < 0
  · rw [lineCircleIntersection, if_pos hD]
  · by_cases hA : icA p0 p1 = 0
    · rw [lineCircleIntersection, if_neg hD, if_pos hA]
    · rw [lineCircleIntersection, if_neg hD, if_neg hA, if_neg hn1, if_neg hn2]

/-- Claim C1: for any segment from p0 to p1 and circle (c, r), the
intersection routine reports no hit when the discriminant is negative;
otherwise it tests the smaller root t1 first and then the larger root t2,
reports a hit at the point of the first root lying in [0,1] (when both roots
are in [0,1] it returns the entry point, the one nearest p0), and reports no
hit when neither root lies in [0,1]. -/
theorem lineCircle_root_order_spec (p0 p1 c : ℝ × ℝ) (r : ℝ) (hne : p0 ≠ p1) :
    (icDisc p0 p1 c r < 0 → lineCircleIntersection p0 p1 c r = none) ∧
    (0 ≤ icDisc p0 p1 c r → icT1 p0 p1 c r ≤ icT2 p0 p1 c r) ∧
    (0 ≤ icDisc p0 p1 c r → 0 ≤ icT1 p0 p1 c r → icT1 p0 p1 c r ≤ 1 →
      lineCircleIntersection p0 p1 c r = some (icPoint p0 p1 (icT1 p0 p1 c r))) ∧
    (0 ≤ icDisc p0 p1 c r → ¬(0 ≤ icT1 p0 p1 c r ∧ icT1 p0 p1 c r ≤ 1) →
      0 ≤ icT2 p0 p1 c r → icT2 p0 p1 c r ≤ 1 →
      lineCircleIntersection p0 p1 c r = some (icPoint p0 p1 (icT2 p0 p1 c r))) ∧
    (¬(0 ≤ icT1 p0 p1 c r ∧ icT1 p0 p1 c r ≤ 1) →
      ¬(0 ≤ icT2 p0 p1 c r ∧ icT2 p0 p1 c r ≤ 1) →
      lineCircleIntersection p0 p1 c r = none) ∧
    (0 ≤ icDisc p0 p1 c r → 0 ≤ icT1 p0 p1 c r → icT1 p0 p1 c r ≤ 1 →
      icT2 p0 p1 c r ≤ 1 →
      lineCircleIntersection p0 p1 c r = some (icPoint p0 p1 (icT1 p0 p1 c r)) ∧
      euclid ((icPoint p0 p1 (icT1 p0 p1 c r)).1 - p0.1)
             ((icPoint p0 p1 (icT1 p0 p1 c r)).2 - p0.2) ≤
      euclid ((icPoint p0 p1 (icT2 p0 p1 c r)).1 - p0.1)
             ((icPoint p0 p1 (icT2 p0 p1 c r)).2 - p0.2)) := by
  have hA := icA_pos p0 p1 hne
  have hAne : ¬icA p0 p1 = 0 := ne_of_gt hA
  refine ⟨lci_disc_neg p0 p1 c r, fun _ => icT1_le_icT2 p0 p1 c r hne, ?_, ?_, ?_, ?_⟩
  · intro hD h0 h1
    exact lci_hit_t1 p0 p1 c r (not_lt.mpr hD) hAne ⟨h0, h1⟩
  · intro hD hn1 h0 h1
    exact lci_hit_t2 p0 p1 c r (not_lt.mpr hD) hAne hn1 ⟨h0, h1⟩
  · exact lci_no_root p0 p1 c r
  · intro hD h0 h1 h2
    refine ⟨lci_hit_t1 p0 p1 c r (not_lt.mpr hD) hAne ⟨h0, h1⟩, ?_⟩
    have ht12 := icT1_le_icT2 p0 p1 c r hne
    have key : ∀ t u : ℝ, 0 ≤ t → t ≤ u →
        euclid (t * (p1.1 - p0.1)) (t * (p1.2 - p0.2)) ≤
        euclid (u * (p1.1 - p0.1)) (u * (p1.2 - p0.2)) := by
      intro t u ht htu
      apply Real.sqrt_le_sqrt
      have htt : t * t ≤ u * u := mul_self_le_mul_self ht htu
      nlinarith [htt, mul_self_nonneg (p1.1 - p0.1), mul_self_nonneg (p1.2 - p0.2)]
    have e1 : (icPoint p0 p1 (icT1 p0 p1 c r)).1 - p0.1 =
        icT1 p0 p1 c r * (p1.1 - p0.1) := by simp [icPoint]
    have e2 : (icPoint p0 p1 (icT1 p0 p1 c r)).2 - p0.2 =
        icT1 p0 p1 c r * (p1.2 - p0.2) := by simp [icPoint]
    have e3 : (icPoint p0 p1 (icT2 p0 p1 c r)).1 - p0.1 =
        icT2 p0 p1 c r * (p1.1 - p0.1) := by simp [icPoint]
    have e4 : (icPoint p0 p1 (icT2 p0 p1 c r)).2 - p0.2 =
        icT2 p0 p1 c r * (p1.2 - p0.2) := by simp [icPoint]
    rw [e1, e2, e3, e4]
    exact key _ _ h0 ht12

/-- Witness for C1 at the concrete segment (0,0)-(0,2) against the circle of
center (0,1) and radius 1, whose roots are t1 = 0 and t2 = 1. -/
theorem lineCircle_root_order_spec_witness :
    w1p0 ≠ w1p1 ∧ 0 ≤ icDisc w1p0 w1p1 w1c 1 ∧ 0 ≤ icT1 w1p0 w1p1 w1c 1 ∧
    icT1 w1p0 w1p1 w1c 1 ≤ 1 ∧ icT2 w1p0 w1p1 w1c 1 ≤ 1 ∧
    (lineCircleIntersection w1p0 w1p1 w1c 1 =
        some (icPoint w1p0 w1p1 (icT1 w1p0 w1p1 w1c 1)) ∧
      euclid ((icPoint w1p0 w1p1 (icT1 w1p0 w1p1 w1c 1)).1 - w1p0.1)
             ((icPoint w1p0 w1p1 (icT1 w1p0 w1p1 w1c 1)).2 - w1p0.2) ≤
      euclid ((icPoint w1p0 w1p1 (icT2 w1p0 w1p1 w1c 1)).1 - w1p0.1)
             ((icPoint w1p0 w1p1 (icT2 w1p0 w1p1 w1c 1)).2 - w1p0.2)) := by
  have hne : w1p0 ≠ w1p1 := by
    rw [w1p0, w1p1]
    intro h
    rw [Prod.ext_iff] at h
    norm_num at h
  have hd : icDisc w1p0 w1p1 w1c 1 = 16 := by
    norm_num [icDisc, icA, icB, icC, w1p0, w1p1, w1c]
  have hs : Real.sqrt (icDisc w1p0 w1p1 w1c 1) = 4 := by
    rw [hd, show (16 : ℝ) = 4 ^ 2 by norm_num, Real.sqrt_sq (by norm_num : (0:ℝ) ≤ 4)]
  have ht1 : icT1 w1p0 w1p1 w1c 1 = 0 := by
    rw [icT1, hs]
    norm_num [icB, icA, w1p0, w1p1, w1c]
  have ht2 : icT2 w1p0 w1p1 w1c 1 = 1 := by
    rw [icT2, hs]
    norm_num [icB, icA, w1p0, w1p1, w1c]
  have hD : 0 ≤ icDisc w1p0 w1p1 w1c 1 := by rw [hd]; norm_num
  have h0 : 0 ≤ icT1 w1p0 w1p1 w1c 1 := by rw [ht1]
  have h1 : icT1 w1p0 w1p1 w1c 1 ≤ 1 := by rw [ht1]; norm_num
  have h2 : icT2 w1p0 w1p1 w1c 1 ≤ 1 := by rw [ht2]
  exact ⟨hne, hD, h0, h1, h2,
    (lineCircle_root_order_spec w1p0 w1p1 w1c 1 hne).2.2.2.2.2 hD h0 h1 h2⟩

/-- Claim C7: when an update step crosses the depth bound or the lateral
bound without a detected hit, the attempt ends as a loss at the stepped
endpoint itself: the final tip is the full stepped point, the loss path
length (and hence the booked cost) uses that full step, and no backtracking
to the exact boundary crossing happens. -/
theorem boundary_exit_spec (g : Game) (dt : ℝ) (h1 : g.state = GState.drilling)
    (h2 : lciOf g dt = none)
    (h3 : (updNext g dt).2 ≤ MAX_DEPTH_WORLD ∨ (updNext g dt).1 > 1100) :
    (update g dt).state = GState.lose ∧
    (update g dt).drill_tip = updNext g dt ∧
    (update g dt).drill_path_length = g.drill_path_length +
      euclid ((updNext g dt).1 - g.drill_tip.1) ((updNext g dt).2 - g.drill_tip.2) ∧
    (update g dt).total_cost = (update g dt).drill_path_length * DRILL_COST_PER_METER ∧
    (update g dt).accumulated_cost = g.accumulated_cost + (update g dt).total_cost ∧
    (update g dt).result_point = none ∧
    (update g dt).tries_remaining = g.tries_remaining - 1 := by
  rcases update_cases g dt with ⟨hs, _⟩ | ⟨_, ipt, hl, _⟩ | ⟨_, _, he⟩
  · exact absurd h1 hs
  · exact Option.noConfusion (h2 ▸ hl)
  · rw [he, missStep_cross _ _ h3]
    exact ⟨rfl, rfl, rfl, rfl, rfl, rfl, rfl⟩

/-- Witness for C7: drilling straight down from (500,0) at angle -90 with
dt = 1 steps to (500,-900), missing the target at (250,-700), and loses at
the stepped endpoint. -/
theorem boundary_exit_spec_witness :
    gW7.state = GState.drilling ∧ lciOf gW7 1 = none ∧
    ((updNext gW7 1).2 ≤ MAX_DEPTH_WORLD ∨ (updNext gW7 1).1 > 1100) ∧
    ((update gW7 1).state = GState.lose ∧
     (update gW7 1).drill_tip = updNext gW7 1 ∧
     (update gW7 1).drill_path_length = gW7.drill_path_length +
       euclid ((updNext gW7 1).1 - gW7.drill_tip.1) ((updNext gW7 1).2 - gW7.drill_tip.2) ∧
     (update gW7 1).total_cost = (update gW7 1).drill_path_length * DRILL_COST_PER_METER ∧
     (update gW7 1).accumulated_cost = gW7.accumulated_cost + (update gW7 1).total_cost ∧
     (update gW7 1).result_point = none ∧
     (update gW7 1).tries_remaining = gW7.tries_remaining - 1) := by
  have hang : deg2rad (-90) = -(Real.pi / 2) := by rw [deg2rad]; ring
  have hnext : updNext gW7 1 = (500, -900) := by
    rw [updNext]
    show ((500 : ℝ) + Real.cos (deg2rad (-90)) * (900 * 1),
          (0 : ℝ) + Real.sin (deg2rad (-90)) * (900 * 1)) = ((500 : ℝ), (-900 : ℝ))
    rw [hang, Real.cos_neg, Real.sin_neg, Real.cos_pi_div_two, Real.sin_pi_div_two]
    norm_num
  have hdisc : icDisc ((500:ℝ), (0:ℝ)) ((500:ℝ), (-900:ℝ)) ((250:ℝ), (-700:ℝ)) 10 < 0 := by
    norm_num [icDisc, icA, icB, icC]
  have hl : lciOf gW7 1 = none := by
    rw [lciOf, hnext]
    show lineCircleIntersection ((500:ℝ), (0:ℝ)) ((500:ℝ), (-900:ℝ)) ((250:ℝ), (-700:ℝ)) 10 = none
    exact lci_disc_neg _ _ _ _ hdisc
  have h3 : (updNext gW7 1).2 ≤ MAX_DEPTH_WORLD ∨ (updNext gW7 1).1 > 1100 := by
    left
    rw [hnext, MAX_DEPTH_WORLD]
  exact ⟨rfl, hl, h3, boundary_exit_spec gW7 1 rfl hl h3⟩

/-- Claim C8: commands issued outside their valid state are silent no-ops:
startDrill outside "aim" changes nothing, angle adjustment outside "aim"
changes nothing, and the resume command in a "lose" state with no tries
left changes nothing. -/
theorem invalid_command_noop_spec :
    (∀ g : Game, g.state ≠ GState.aim → startDrill g = g) ∧
    (∀ g : Game, g.state ≠ GState.aim → arrowLeft g = g ∧ arrowRight g = g) ∧
    (∀ g : Game, g.state = GState.lose → g.tries_remaining ≤ 0 → spaceKey g = g) := by
  refine ⟨?_, ?_, ?_⟩
  · intro g h
    rw [startDrill, if_neg h]
  · intro g h
    exact ⟨by rw [arrowLeft, if_neg h], by rw [arrowRight, if_neg h]⟩
  · intro g h1 h2
    have hna : g.state ≠ GState.aim := by rw [h1]; intro h; exact GState.noConfusion h
    rw [spaceKey, if_neg hna, if_neg]
    intro hc
    exact absurd h2 (not_le.mpr hc.2)

/-- Witness for C8 at a concrete drilling state and a concrete exhausted
lose state. -/
theorem invalid_command_noop_spec_witness :
    gW8.state ≠ GState.aim ∧ startDrill gW8 = gW8 ∧
    arrowLeft gW8 = gW8 ∧ arrowRight gW8 = gW8 ∧
    gW8lose.state = GState.lose ∧ gW8lose.tries_remaining ≤ 0 ∧
    spaceKey gW8lose = gW8lose := by
  have h1 : gW8.state ≠ GState.aim := fun h => GState.noConfusion h
  obtain ⟨ha, hb⟩ := invalid_command_noop_spec.2.1 gW8 h1
  exact ⟨h1, invalid_command_noop_spec.1 gW8 h1, ha, hb, rfl, le_refl 0,
    invalid_command_noop_spec.2.2 gW8lose rfl (le_refl 0)⟩

/-- Claim C10: on a zero-length segment the intersection routine reports no
hit (in the source the quadratic coefficient a is 0, the root computation
divides by zero producing NaN roots, and NaN fails the [0,1] test), even if
the point lies inside or on the circle; consequently, from any reachable
drilling state, update with dt = 0 leaves the whole state unchanged. -/
theorem degenerate_segment_spec :
    (∀ (p c : ℝ × ℝ) (r : ℝ), lineCircleIntersection p p c r = none) ∧
    (∀ g : Game, Reachable g → g.state = GState.drilling → update g 0 = g) := by
  have hnone : ∀ (p c : ℝ × ℝ) (r : ℝ), lineCircleIntersection p p c r = none := by
    intro p c r
    have hd : icDisc p p c r = 0 := by rw [icDisc, icA_self, icB_self]; ring
    rw [lineCircleIntersection, if_neg (by rw [hd]; norm_num), if_pos (icA_self p)]
  refine ⟨hnone, ?_⟩
  intro g hg hs
  have hInv := reachable_inv g hg
  have hnext : updNext g 0 = g.drill_tip := by
    rw [updNext]
    simp
  rcases update_cases g 0 with ⟨hns, _⟩ | ⟨_, ipt, hl, _⟩ | ⟨_, _, he⟩
  · exact absurd hs hns
  · rw [lciOf, hnext, hnone] at hl
    exact Option.noConfusion hl
  · rw [he, hnext]
    have hb : ¬(g.drill_tip.2 ≤ MAX_DEPTH_WORLD ∨ g.drill_tip.1 > 1100) := by
      have hbd := hInv.tip_bounds hs
      rw [not_or]
      exact ⟨not_le.mpr hbd.1, not_lt.mpr hbd.2⟩
    rw [missStep_stay _ _ hb]
    simp only [sub_self, euclid_zero, add_zero]

/-- Witness for C10 at the concrete reachable drilling state obtained by
pressing space on a fresh round. -/
theorem degenerate_segment_spec_witness :
    Reachable (spaceKey (mkGame (1/2) (1/2) (1/2) (1/2))) ∧
    (spaceKey (mkGame (1/2) (1/2) (1/2) (1/2))).state = GState.drilling ∧
    update (spaceKey (mkGame (1/2) (1/2) (1/2) (1/2))) 0 =
      spaceKey (mkGame (1/2) (1/2) (1/2) (1/2)) := by
  have hr : Reachable (spaceKey (mkGame (1/2) (1/2) (1/2) (1/2))) :=
    Reachable.space _ (Reachable.init (1/2) (1/2) (1/2) (1/2)
      (by norm_num) (by norm_num) (by norm_num) (by norm_num)
      (by norm_num) (by norm_num) (by norm_num) (by norm_num))
  have hs : (spaceKey (mkGame (1/2) (1/2) (1/2) (1/2))).state = GState.drilling := by
    have haim : (mkGame (1/2) (1/2) (1/2) (1/2)).state = GState.aim := rfl
    rw [spaceKey, if_pos haim, startDrill, if_pos haim]
  exact ⟨hr, hs, degenerate_segment_spec.2 _ hr hs⟩

/-- Claim C2: tries remaining starts at 3, is decremented by exactly 1 on
each transition into the lose state and by no other operation (a win
transition never decrements it), never becomes negative in any reachable
state, the resume command is only accepted when tries remaining > 0, and
update only decrements while in the drilling state. -/
theorem tries_invariant_spec :
    (∀ r1 r2 r3 r4 : ℝ, (mkGame r1 r2 r3 r4).tries_remaining = 3) ∧
    (∀ g : Game, Reachable g → 0 ≤ g.tries_remaining) ∧
    (∀ (g : Game) (dt : ℝ), g.state = GState.drilling →
      (update g dt).state = GState.lose →
      (update g dt).tries_remaining = g.tries_remaining - 1) ∧
    (∀ (g : Game) (dt : ℝ), (update g dt).state ≠ GState.lose →
      (update g dt).tries_remaining = g.tries_remaining) ∧
    (∀ (g : Game) (dt : ℝ), g.state ≠ GState.drilling → update g dt = g) ∧
    (∀ g : Game, (startDrill g).tries_remaining = g.tries_remaining) ∧
    (∀ g : Game, (arrowLeft g).tries_remaining = g.tries_remaining ∧
      (arrowRight g).tries_remaining = g.tries_remaining) ∧
    (∀ g : Game, (spaceKey g).tries_remaining = g.tries_remaining) ∧
    (∀ g : Game, g.state = GState.lose → g.tries_remaining ≤ 0 → spaceKey g = g) ∧
    (∀ g : Game, g.state = GState.lose → 0 < g.tries_remaining →
      spaceKey g = { g with state := GState.aim }) := by
  refine ⟨fun _ _ _ _ => rfl, fun g hg => (reachable_inv g hg).tries_nonneg,
    ?_, ?_, update_not_drilling, ?_, ?_, ?_, ?_, ?_⟩
  · intro g dt hdr hlose
    rcases update_cases g dt with ⟨hs, _⟩ | ⟨_, ipt, _, he⟩ | ⟨_, _, he⟩
    · exact absurd hdr hs
    · rw [he] at hlose
      exact absurd hlose (by rw [winStep]; intro h; exact GState.noConfusion h)
    · by_cases hb : (updNext g dt).2 ≤ MAX_DEPTH_WORLD ∨ (updNext g dt).1 > 1100
      · rw [he, missStep_cross _ _ hb]
      · rw [he, missStep_stay _ _ hb] at hlose
        rw [show ({ g with
            drill_path_length := g.drill_path_length +
              euclid ((updNext g dt).1 - g.drill_tip.1) ((updNext g dt).2 - g.drill_tip.2),
            drill_tip := updNext g dt } : Game).state = g.state from rfl, hdr] at hlose
        exact absurd hlose (by intro h; exact GState.noConfusion h)
  · intro g dt hnl
    rcases update_cases g dt with ⟨_, he⟩ | ⟨_, ipt, _, he⟩ | ⟨_, _, he⟩
    · rw [he]
    · rw [he, winStep]
    · by_cases hb : (updNext g dt).2 ≤ MAX_DEPTH_WORLD ∨ (updNext g dt).1 > 1100
      · exfalso
        apply hnl
        rw [he, missStep_cross _ _ hb]
      · rw [he, missStep_stay _ _ hb]
  · intro g
    rw [startDrill]
    split <;> rfl
  · intro g
    constructor
    · rw [arrowLeft]; split <;> rfl
    · rw [arrowRight]; split <;> rfl
  · intro g
    rw [spaceKey]
    split
    · rw [startDrill]; split <;> rfl
    · split <;> rfl
  · intro g h1 h2
    have hna : g.state ≠ GState.aim := by rw [h1]; intro h; exact GState.noConfusion h
    rw [spaceKey, if_neg hna, if_neg]
    intro hc
    exact absurd h2 (not_le.mpr hc.2)
  · intro g h1 h2
    have hna : g.state ≠ GState.aim := by rw [h1]; intro h; exact GState.noConfusion h
    rw [spaceKey, if_neg hna, if_pos ⟨h1, h2⟩]

/-- Witness for C2 at a concrete fresh round. -/
theorem tries_invariant_spec_witness :
    Reachable (mkGame (1/2) (1/2) (1/2) (1/2)) ∧
    0 ≤ (mkGame (1/2) (1/2) (1/2) (1/2)).tries_remaining := by
  have hr : Reachable (mkGame (1/2) (1/2) (1/2) (1/2)) :=
    Reachable.init (1/2) (1/2) (1/2) (1/2)
      (by norm_num) (by norm_num) (by norm_num) (by norm_num)
      (by norm_num) (by norm_num) (by norm_num) (by norm_num)
  exact ⟨hr, tries_invariant_spec.2.1 _ hr⟩

/-- Claim C9: in every reachable state, the result point is present exactly
when the state tag is win; in a win state the result point is the current
drill tip and lies exactly on the target circle. -/
theorem result_point_win_spec (g : Game) (hg : Reachable g) :
    (g.result_point ≠ none ↔ g.state = GState.win) ∧
    (g.state = GState.win → g.result_point = some g.drill_tip ∧
      euclid (g.drill_tip.1 - g.target_x) (g.drill_tip.2 - g.target_y) = g.target_radius) := by
  have hInv := reachable_inv g hg
  constructor
  · constructor
    · intro h
      by_contra hw
      exact h (hInv.result_none.mpr hw)
    · intro hw
      obtain ⟨hr, _⟩ := hInv.win_result hw
      rw [hr]
      intro h
      exact Option.noConfusion h
  · intro hw
    obtain ⟨hr, hcirc⟩ := hInv.win_result hw
    refine ⟨hr, ?_⟩
    rw [euclid]
    have hsum : (g.drill_tip.1 - g.target_x) * (g.drill_tip.1 - g.target_x) +
        (g.drill_tip.2 - g.target_y) * (g.drill_tip.2 - g.target_y) =
        g.target_radius ^ 2 := by linear_combination hcirc
    rw [hsum]
    exact Real.sqrt_sq hInv.radius_pos.le

/-- Witness for C9 at a concrete fresh round. -/
theorem result_point_win_spec_witness :
    Reachable (mkGame (1/4) (1/4) (1/4) (1/4)) ∧
    ((mkGame (1/4) (1/4) (1/4) (1/4)).result_point ≠ none ↔
      (mkGame (1/4) (1/4) (1/4) (1/4)).state = GState.win) := by
  have hr : Reachable (mkGame (1/4) (1/4) (1/4) (1/4)) :=
    Reachable.init (1/4) (1/4) (1/4) (1/4)
      (by norm_num) (by norm_num) (by norm_num) (by norm_num)
      (by norm_num) (by norm_num) (by norm_num) (by norm_num)
  exact ⟨hr, (result_point_win_spec _ hr).1⟩

/-- Counterexample to claim C5 as stated: resetRound does not reset the
current angle.  Starting from a fresh round with the default angle -90 and
turning one step right (angle -89), a subsequent resetRound leaves the angle
at -89 instead of returning it to the default. -/
theorem resetRound_angle_ce :
    (resetRound (arrowRight (mkGame (1/2) 0 (1/2) (1/3))) (1/2) 0 (1/2) (1/3)).angle = -89 ∧
    (-89 : ℝ) ≠ ANGLE_DEFAULT := by
  constructor
  · have h : (arrowRight (mkGame (1/2) 0 (1/2) (1/3))).angle = -89 := by
      have haim : (mkGame (1/2) 0 (1/2) (1/3)).state = GState.aim := rfl
      rw [arrowRight, if_pos haim]
      show clamp ((-90 : ℝ) + 1) ANGLE_MIN ANGLE_MAX = -89
      rw [clamp, ANGLE_MIN, ANGLE_MAX]
      rw [min_eq_right (by norm_num : (-90 : ℝ) + 1 ≤ 0),
        max_eq_right (by norm_num : (-180 : ℝ) ≤ -90 + 1)]
      norm_num
    exact h
  · rw [ANGLE_DEFAULT]
    norm_num

/-- Claim C5, amended: resetRound replaces the Round state (origin X, target
X, target Y, target radius) and the Session state (tries remaining back to
3, accumulated and last-attempt cost back to 0), and resets the Attempt
state except for the current angle: the drill tip returns to the new origin
at the surface, the path length to 0, the result point to absent, and the
state tag to aim, while the angle is left unchanged from the previous
round. -/
theorem resetRound_spec_amended (g : Game) (r1 r2 r3 r4 : ℝ) :
    (resetRound g r1 r2 r3 r4).origin_x = r1 * (ORIGIN_X_MAX - ORIGIN_X_MIN) + ORIGIN_X_MIN ∧
    (resetRound g r1 r2 r3 r4).target_x = r2 * (TARGET_X_MAX - TARGET_X_MIN) + TARGET_X_MIN ∧
    (resetRound g r1 r2 r3 r4).target_y = r3 * (TARGET_Y_MAX - TARGET_Y_MIN) + TARGET_Y_MIN ∧
    (resetRound g r1 r2 r3 r4).target_radius =
      r4 * (TARGET_RADIUS_MAX - TARGET_RADIUS_MIN) + TARGET_RADIUS_MIN ∧
    (resetRound g r1 r2 r3 r4).tries_remaining = 3 ∧
    (resetRound g r1 r2 r3 r4).accumulated_cost = 0 ∧
    (resetRound g r1 r2 r3 r4).total_cost = 0 ∧
    (resetRound g r1 r2 r3 r4).state = GState.aim ∧
    (resetRound g r1 r2 r3 r4).drill_tip =
      ((resetRound g r1 r2 r3 r4).origin_x, SURFACE_Y_WORLD) ∧
    (resetRound g r1 r2 r3 r4).drill_path_length = 0 ∧
    (resetRound g r1 r2 r3 r4).result_point = none ∧
    (resetRound g r1 r2 r3 r4).drill_speed_mps = 900 ∧
    (resetRound g r1 r2 r3 r4).angle = g.angle :=
  ⟨rfl, rfl, rfl, rfl, rfl, rfl, rfl, rfl, rfl, rfl, rfl, rfl, rfl⟩

/-- Claim C6: within one attempt the cumulative path length grows by exactly
the Euclidean length of each per-step segment actually taken by the tip
(including the final partial segment to the exact intersection point on a
win), equals the sum of those segment lengths over any update sequence, and
is monotonically non-decreasing. -/
theorem path_length_sum_spec :
    (∀ (g : Game) (dt : ℝ),
      (update g dt).drill_path_length = g.drill_path_length +
        euclid ((update g dt).drill_tip.1 - g.drill_tip.1)
               ((update g dt).drill_tip.2 - g.drill_tip.2)) ∧
    (∀ (g : Game) (dts : ℕ → ℝ) (n : ℕ),
      (iterUpd g dts n).drill_path_length = g.drill_path_length +
        Finset.sum (Finset.range n) (fun i =>
          euclid ((iterUpd g dts (i+1)).drill_tip.1 - (iterUpd g dts i).drill_tip.1)
                 ((iterUpd g dts (i+1)).drill_tip.2 - (iterUpd g dts i).drill_tip.2))) ∧
    (∀ (g : Game) (dts : ℕ → ℝ) (m n : ℕ), m ≤ n →
      (iterUpd g dts m).drill_path_length ≤ (iterUpd g dts n).drill_path_length) ∧
    (∀ (g : Game) (dt : ℝ) (ipt : ℝ × ℝ), g.state = GState.drilling →
      lciOf g dt = some ipt →
      (update g dt).drill_tip = ipt ∧
      (update g dt).drill_path_length = g.drill_path_length +
        euclid (ipt.1 - g.drill_tip.1) (ipt.2 - g.drill_tip.2)) := by
  have h1 : ∀ (g : Game) (dt : ℝ),
      (update g dt).drill_path_length = g.drill_path_length +
        euclid ((update g dt).drill_tip.1 - g.drill_tip.1)
               ((update g dt).drill_tip.2 - g.drill_tip.2) := by
    intro g dt
    rcases update_cases g dt with ⟨_, he⟩ | ⟨_, ipt, _, he⟩ | ⟨_, _, he⟩
    · rw [he]
      simp [sub_self, euclid_zero]
    · rw [he]
      rfl
    · rw [he]
      by_cases hb : (updNext g dt).2 ≤ MAX_DEPTH_WORLD ∨ (updNext g dt).1 > 1100
      · rw [missStep_cross _ _ hb]
      · rw [missStep_stay _ _ hb]
  have hstep : ∀ (g : Game) (dts : ℕ → ℝ) (n : ℕ),
      (iterUpd g dts n).drill_path_length ≤ (iterUpd g dts (n+1)).drill_path_length := by
    intro g dts n
    have hh := h1 (iterUpd g dts n) (dts n)
    have hnn := euclid_nonneg
      ((update (iterUpd g dts n) (dts n)).drill_tip.1 - (iterUpd g dts n).drill_tip.1)
      ((update (iterUpd g dts n) (dts n)).drill_tip.2 - (iterUpd g dts n).drill_tip.2)
    show (iterUpd g dts n).drill_path_length ≤
      (update (iterUpd g dts n) (dts n)).drill_path_length
    linarith
  refine ⟨h1, ?_, ?_, ?_⟩
  · intro g dts n
    induction n with
    | zero => simp [iterUpd]
    | succ n ih =>
        rw [Finset.sum_range_succ,
          show iterUpd g dts (n+1) = update (iterUpd g dts n) (dts n) from rfl,
          h1 (iterUpd g dts n) (dts n), ih]
        ring
  · intro g dts m n hmn
    induction n, hmn using Nat.le_induction with
    | base => exact le_refl _
    | succ n hmn ih => exact le_trans ih (hstep g dts n)
  · intro g dt ipt hs hl
    rcases update_cases g dt with ⟨hns, _⟩ | ⟨_, ipt', hl', he⟩ | ⟨_, hl', _⟩
    · exact absurd hs hns
    · have hee : ipt' = ipt := by
        rw [hl'] at hl
        exact Option.some_injective _ hl
      subst hee
      rw [he]
      exact ⟨rfl, rfl⟩
    · exact Option.noConfusion (hl' ▸ hl)

/-- Witness for C6: a trivial monotonicity instance, and a concrete hit
whose partial segment ends exactly at the intersection point (500, 0). -/
theorem path_length_sum_spec_witness :
    (0 : ℕ) ≤ 1 ∧
    (iterUpd initial (fun _ => 1) 0).drill_path_length ≤
      (iterUpd initial (fun _ => 1) 1).drill_path_length ∧
    g9.state = GState.drilling ∧ lciOf g9 1 = some ((500 : ℝ), (0 : ℝ)) ∧
    ((update g9 1).drill_tip = ((500 : ℝ), (0 : ℝ)) ∧
     (update g9 1).drill_path_length = g9.drill_path_length +
       euclid ((500 : ℝ) - g9.drill_tip.1) ((0 : ℝ) - g9.drill_tip.2)) := by
  have hang : deg2rad (-90) = -(Real.pi / 2) := by rw [deg2rad]; ring
  have hnext : updNext g9 1 = ((500 : ℝ), (-900 : ℝ)) := by
    rw [updNext]
    show ((500 : ℝ) + Real.cos (deg2rad (-90)) * (900 * 1),
          (0 : ℝ) + Real.sin (deg2rad (-90)) * (900 * 1)) = ((500 : ℝ), (-900 : ℝ))
    rw [hang, Real.cos_neg, Real.sin_neg, Real.cos_pi_div_two, Real.sin_pi_div_two]
    norm_num
  have hd : icDisc ((500:ℝ), (0:ℝ)) ((500:ℝ), (-900:ℝ)) ((500:ℝ), (-700:ℝ)) 700 =
      1587600000000 := by
    norm_num [icDisc, icA, icB, icC]
  have hsq : Real.sqrt (icDisc ((500:ℝ), (0:ℝ)) ((500:ℝ), (-900:ℝ)) ((500:ℝ), (-700:ℝ)) 700) =
      1260000 := by
    rw [hd, show (1587600000000 : ℝ) = 1260000 ^ 2 by norm_num,
      Real.sqrt_sq (by norm_num : (0:ℝ) ≤ 1260000)]
  have ht1 : icT1 ((500:ℝ), (0:ℝ)) ((500:ℝ), (-900:ℝ)) ((500:ℝ), (-700:ℝ)) 700 = 0 := by
    rw [icT1, hsq]
    norm_num [icB, icA]
  have hl0 : lineCircleIntersection ((500:ℝ), (0:ℝ)) ((500:ℝ), (-900:ℝ))
      ((500:ℝ), (-700:ℝ)) 700 =
      some (icPoint ((500:ℝ), (0:ℝ)) ((500:ℝ), (-900:ℝ))
        (icT1 ((500:ℝ), (0:ℝ)) ((500:ℝ), (-900:ℝ)) ((500:ℝ), (-700:ℝ)) 700)) :=
    lci_hit_t1 _ _ _ _ (by rw [hd]; norm_num) (by norm_num [icA])
      (by rw [ht1]; norm_num)
  have hpt : icPoint ((500:ℝ), (0:ℝ)) ((500:ℝ), (-900:ℝ))
      (icT1 ((500:ℝ), (0:ℝ)) ((500:ℝ), (-900:ℝ)) ((500:ℝ), (-700:ℝ)) 700) =
      ((500 : ℝ), (0 : ℝ)) := by
    rw [ht1]
    norm_num [icPoint]
  have hl : lciOf g9 1 = some ((500 : ℝ), (0 : ℝ)) := by
    rw [lciOf, hnext]
    show lineCircleIntersection ((500:ℝ), (0:ℝ)) ((500:ℝ), (-900:ℝ))
      ((500:ℝ), (-700:ℝ)) 700 = some ((500 : ℝ), (0 : ℝ))
    rw [hl0, hpt]
  obtain ⟨ha, hb⟩ := path_length_sum_spec.2.2.2 g9 1 ((500:ℝ), (0:ℝ)) rfl hl
  exact ⟨by norm_num, path_length_sum_spec.2.2.1 initial (fun _ => 1) 0 1 (by norm_num),
    rfl, hl, ha, hb⟩

/-- How any single non-reset interaction changes the accumulated cost: it is
bumped by the attempt's final path length times the cost constant exactly on
a completion (a drilling-to-win/lose transition), and unchanged otherwise. -/
theorem act_acc (g : Game) (a : Act) (hna : isReset a = false) :
    (applyAct g a).accumulated_cost = g.accumulated_cost +
      (if g.state = GState.drilling ∧
          ((applyAct g a).state = GState.win ∨ (applyAct g a).state = GState.lose)
       then (applyAct g a).drill_path_length * DRILL_COST_PER_METER else 0) := by
  cases a with
  | upd dt =>
      simp only [applyAct]
      rcases update_cases g dt with ⟨hs, he⟩ | ⟨hs, ipt, hl, he⟩ | ⟨hs, hl, he⟩
      · rw [he, if_neg, add_zero]
        intro hc
        exact hs hc.1
      · rw [he, if_pos ⟨hs, Or.inl rfl⟩]
        rfl
      · by_cases hb : (updNext g dt).2 ≤ MAX_DEPTH_WORLD ∨ (updNext g dt).1 > 1100
        · rw [he, missStep_cross _ _ hb, if_pos ⟨hs, Or.inr rfl⟩]
        · rw [he, missStep_stay _ _ hb, if_neg, add_zero]
          intro hc
          rcases hc.2 with hw | hlw
          · have hw' : g.state = GState.win := hw
            exact GState.noConfusion (hs.symm.trans hw')
          · have hl' : g.state = GState.lose := hlw
            exact GState.noConfusion (hs.symm.trans hl')
  | space =>
      simp only [applyAct]
      by_cases h1 : g.state = GState.aim
      · rw [spaceKey, if_pos h1, startDrill, if_pos h1, if_neg, add_zero]
        intro hc
        exact GState.noConfusion (hc.1.symm.trans h1)
      · rw [spaceKey, if_neg h1]
        by_cases h2 : g.state = GState.lose ∧ 0 < g.tries_remaining
        · rw [if_pos h2, if_neg, add_zero]
          intro hc
          exact GState.noConfusion (hc.1.symm.trans h2.1)
        · rw [if_neg h2, if_neg, add_zero]
          intro hc
          rcases hc.2 with hw | hlw
          · exact GState.noConfusion (hc.1.symm.trans hw)
          · exact GState.noConfusion (hc.1.symm.trans hlw)
  | left =>
      simp only [applyAct]
      rw [arrowLeft]
      split
      · rename_i h1
        rw [if_neg, add_zero]
        intro hc
        exact GState.noConfusion (hc.1.symm.trans h1)
      · rw [if_neg, add_zero]
        intro hc
        rcases hc.2 with hw | hlw
        · exact GState.noConfusion (hc.1.symm.trans hw)
        · exact GState.noConfusion (hc.1.symm.trans hlw)
  | right =>
      simp only [applyAct]
      rw [arrowRight]
      split
      · rename_i h1
        rw [if_neg, add_zero]
        intro hc
        exact GState.noConfusion (hc.1.symm.trans h1)
      · rw [if_neg, add_zero]
        intro hc
        rcases hc.2 with hw | hlw
        · exact GState.noConfusion (hc.1.symm.trans hw)
        · exact GState.noConfusion (hc.1.symm.trans hlw)
  | reset r1 r2 r3 r4 =>
      simp [isReset] at hna

/-- Claim C3: the accumulated cost is the running sum, over the completed
attempts of the round, of each attempt's final path length times the cost
constant; it is bumped exactly once per win/lose transition, left unchanged
by every other interaction, never decreased by any non-reset interaction
from a reachable state, and zeroed by resetRound. -/
theorem accumulated_cost_spec :
    (∀ (g : Game) (r1 r2 r3 r4 : ℝ), (resetRound g r1 r2 r3 r4).accumulated_cost = 0) ∧
    (∀ (g : Game) (dt : ℝ), g.state = GState.drilling →
      ((update g dt).state = GState.win ∨ (update g dt).state = GState.lose) →
      (update g dt).accumulated_cost = g.accumulated_cost +
        (update g dt).drill_path_length * DRILL_COST_PER_METER ∧
      (update g dt).total_cost = (update g dt).drill_path_length * DRILL_COST_PER_METER) ∧
    (∀ (g : Game) (dt : ℝ), ¬(g.state = GState.drilling ∧
        ((update g dt).state = GState.win ∨ (update g dt).state = GState.lose)) →
      (update g dt).accumulated_cost = g.accumulated_cost) ∧
    (∀ g : Game, (startDrill g).accumulated_cost = g.accumulated_cost ∧
      (spaceKey g).accumulated_cost = g.accumulated_cost ∧
      (arrowLeft g).accumulated_cost = g.accumulated_cost ∧
      (arrowRight g).accumulated_cost = g.accumulated_cost) ∧
    (∀ (g : Game) (acts : List Act), (∀ a ∈ acts, isReset a = false) →
      (run g acts).accumulated_cost = g.accumulated_cost + (attemptCosts g acts).sum) ∧
    (∀ g : Game, Reachable g → ∀ a : Act, isReset a = false →
      g.accumulated_cost ≤ (applyAct g a).accumulated_cost) := by
  refine ⟨fun _ _ _ _ _ => rfl, ?_, ?_, ?_, ?_, ?_⟩
  · intro g dt hs hwl
    rcases update_cases g dt with ⟨hns, _⟩ | ⟨_, ipt, hl, he⟩ | ⟨_, hl, he⟩
    · exact absurd hs hns
    · rw [he]
      exact ⟨rfl, rfl⟩
    · by_cases hb : (updNext g dt).2 ≤ MAX_DEPTH_WORLD ∨ (updNext g dt).1 > 1100
      · rw [he, missStep_cross _ _ hb]
        exact ⟨rfl, rfl⟩
      · exfalso
        rw [he, missStep_stay _ _ hb] at hwl
        rcases hwl with hw | hlw
        · have hw' : g.state = GState.win := hw
          exact GState.noConfusion (hs.symm.trans hw')
        · have hl' : g.state = GState.lose := hlw
          exact GState.noConfusion (hs.symm.trans hl')
  · intro g dt hn
    rcases update_cases g dt with ⟨_, he⟩ | ⟨hs, ipt, hl, he⟩ | ⟨hs, hl, he⟩
    · rw [he]
    · exfalso
      exact hn ⟨hs, Or.inl (by rw [he]; rfl)⟩
    · by_cases hb : (updNext g dt).2 ≤ MAX_DEPTH_WORLD ∨ (updNext g dt).1 > 1100
      · exfalso
        exact hn ⟨hs, Or.inr (by rw [he, missStep_cross _ _ hb])⟩
      · rw [he, missStep_stay _ _ hb]
  · intro g
    refine ⟨?_, ?_, ?_, ?_⟩
    · rw [startDrill]; split <;> rfl
    · rw [spaceKey]
      split
      · rw [startDrill]; split <;> rfl
      · split <;> rfl
    · rw [arrowLeft]; split <;> rfl
    · rw [arrowRight]; split <;> rfl
  · intro g acts
    induction acts generalizing g with
    | nil =>
        intro _
        show g.accumulated_cost = g.accumulated_cost + (attemptCosts g []).sum
        rw [show attemptCosts g [] = [] from rfl]
        simp
    | cons a rest ih =>
        intro hall
        have hna := hall a (List.mem_cons_self a rest)
        have hrest : ∀ b ∈ rest, isReset b = false := fun b hb =>
          hall b (List.mem_cons_of_mem a hb)
        show (run (applyAct g a) rest).accumulated_cost = _
        rw [ih (applyAct g a) hrest, act_acc g a hna]
        show _ = g.accumulated_cost +
          ((if g.state = GState.drilling ∧
              ((applyAct g a).state = GState.win ∨ (applyAct g a).state = GState.lose)
            then [(applyAct g a).drill_path_length * DRILL_COST_PER_METER] else []) ++
           attemptCosts (applyAct g a) rest).sum
        rw [List.sum_append]
        by_cases hcond : g.state = GState.drilling ∧
            ((applyAct g a).state = GState.win ∨ (applyAct g a).state = GState.lose)
        · rw [if_pos hcond, if_pos hcond]
          simp only [List.sum_cons, List.sum_nil]
          ring
        · rw [if_neg hcond, if_neg hcond]
          simp only [List.sum_nil]
          ring
  · intro g hg a hna
    rw [act_acc g a hna]
    split
    · have hInv : Inv (applyAct g a) := by
        cases a with
        | upd dt => exact inv_update g dt (reachable_inv g hg)
        | space => exact inv_spaceKey g (reachable_inv g hg)
        | left => exact inv_arrowLeft g (reachable_inv g hg)
        | right => exact inv_arrowRight g (reachable_inv g hg)
        | reset r1 r2 r3 r4 => simp [isReset] at hna
      have hp : 0 ≤ (applyAct g a).drill_path_length := hInv.path_nonneg
      have hmul : 0 ≤ (applyAct g a).drill_path_length * DRILL_COST_PER_METER :=
        mul_nonneg hp (by norm_num [DRILL_COST_PER_METER])
      linarith
    · simp

/-- Witness for C3: the reset-free run condition on a singleton command list
and the monotonicity instance at a concrete fresh round. -/
theorem accumulated_cost_spec_witness :
    (∀ a ∈ [Act.space], isReset a = false) ∧
    (run initial [Act.space]).accumulated_cost =
      initial.accumulated_cost + (attemptCosts initial [Act.space]).sum ∧
    Reachable (mkGame (1/2) (1/2) (1/2) (1/2)) ∧ isReset Act.space = false ∧
    (mkGame (1/2) (1/2) (1/2) (1/2)).accumulated_cost ≤
      (applyAct (mkGame (1/2) (1/2) (1/2) (1/2)) Act.space).accumulated_cost := by
  have h1 : ∀ a ∈ [Act.space], isReset a = false := by
    intro a ha
    rw [List.mem_singleton] at ha
    subst ha
    rfl
  have hr : Reachable (mkGame (1/2) (1/2) (1/2) (1/2)) :=
    Reachable.init (1/2) (1/2) (1/2) (1/2)
      (by norm_num) (by norm_num) (by norm_num) (by norm_num)
      (by norm_num) (by norm_num) (by norm_num) (by norm_num)
  exact ⟨h1, accumulated_cost_spec.2.2.2.2.1 initial [Act.space] h1, hr, rfl,
    accumulated_cost_spec.2.2.2.2.2 _ hr Act.space rfl⟩

/-- Claim C4, amended: from an aim state with the standard drilling speed and
angle strictly between -180 and 0 (or exactly 0), if the frame deltas are
positive and their partial sums grow without bound, then after startDrill
repeated updates eventually leave the drilling state for win or lose. -/
theorem drill_termination_amended (g : Game) (ha : g.state = GState.aim)
    (hsp : g.drill_speed_mps = 900) (hlo : -180 < g.angle) (hhi : g.angle ≤ 0)
    (dts : ℕ → ℝ) (hpos : ∀ i, 0 < dts i)
    (hdiv : ∀ M : ℝ, ∃ n, M ≤ sumTo dts n) :
    ∃ n, (iterUpd (startDrill g) dts n).state = GState.win ∨
         (iterUpd (startDrill g) dts n).state = GState.lose := by
  by_contra hc
  push_neg at hc
  have hg1 : startDrill g =
      { g with
        state := GState.drilling
        drill_tip := (g.origin_x, SURFACE_Y_WORLD)
        result_point := none
        drill_path_length := 0 } := by
    rw [startDrill, if_pos ha]
  have key : ∀ n, (iterUpd (startDrill g) dts n).state = GState.drilling ∧
      (iterUpd (startDrill g) dts n).angle = g.angle ∧
      (iterUpd (startDrill g) dts n).drill_speed_mps = 900 ∧
      (iterUpd (startDrill g) dts n).drill_tip =
        (g.origin_x + Real.cos (deg2rad g.angle) * (900 * sumTo dts n),
         Real.sin (deg2rad g.angle) * (900 * sumTo dts n)) ∧
      (1 ≤ n → MAX_DEPTH_WORLD < (iterUpd (startDrill g) dts n).drill_tip.2 ∧
        (iterUpd (startDrill g) dts n).drill_tip.1 ≤ 1100) := by
    intro n
    induction n with
    | zero =>
        refine ⟨?_, ?_, ?_, ?_, ?_⟩
        · rw [show iterUpd (startDrill g) dts 0 = startDrill g from rfl, hg1]
        · rw [show iterUpd (startDrill g) dts 0 = startDrill g from rfl, hg1]
        · rw [show iterUpd (startDrill g) dts 0 = startDrill g from rfl, hg1]
          exact hsp
        · rw [show iterUpd (startDrill g) dts 0 = startDrill g from rfl, hg1, sumTo_zero]
          simp [SURFACE_Y_WORLD]
        · intro h
          exact absurd h (by omega)
    | succ n ih =>
        obtain ⟨ihs, iha, ihsp, ihtip, _⟩ := ih
        have hit : iterUpd (startDrill g) dts (n+1) =
            update (iterUpd (startDrill g) dts n) (dts n) := rfl
        rcases update_cases (iterUpd (startDrill g) dts n) (dts n) with
          ⟨hns, _⟩ | ⟨_, ipt, _, he⟩ | ⟨_, _, he⟩
        · exact absurd ihs hns
        · exfalso
          apply (hc (n+1)).1
          rw [hit, he]
          rfl
        · by_cases hb : (updNext (iterUpd (startDrill g) dts n) (dts n)).2 ≤ MAX_DEPTH_WORLD ∨
              (updNext (iterUpd (startDrill g) dts n) (dts n)).1 > 1100
          · exfalso
            apply (hc (n+1)).2
            rw [hit, he, missStep_cross _ _ hb]
          · have hx : (iterUpd (startDrill g) dts n).drill_tip.1 =
                g.origin_x + Real.cos (deg2rad g.angle) * (900 * sumTo dts n) := by
              rw [ihtip]
            have hy : (iterUpd (startDrill g) dts n).drill_tip.2 =
                Real.sin (deg2rad g.angle) * (900 * sumTo dts n) := by
              rw [ihtip]
            have hnext : updNext (iterUpd (startDrill g) dts n) (dts n) =
                (g.origin_x + Real.cos (deg2rad g.angle) * (900 * sumTo dts (n+1)),
                 Real.sin (deg2rad g.angle) * (900 * sumTo dts (n+1))) := by
              rw [updNext, iha, ihsp, hx, hy, sumTo_succ, Prod.mk.injEq]
              constructor
              · ring
              · ring
            have hb1 := not_le.mp (not_or.mp hb).1
            have hb2 := not_lt.mp (not_or.mp hb).2
            rw [hit, he, missStep_stay _ _ hb]
            exact ⟨ihs, iha, ihsp, hnext, fun _ => ⟨hb1, hb2⟩⟩
  have hpi := Real.pi_pos
  rcases lt_or_eq_of_le hhi with hlt | heq
  · have hθlt : deg2rad g.angle < 0 := by
      have hstep : 0 < (-g.angle) * Real.pi := mul_pos (by linarith) hpi
      have hexp : (-g.angle) * Real.pi = -(g.angle * Real.pi) := by ring
      rw [hexp] at hstep
      rw [deg2rad]
      linarith
    have hθgt : -Real.pi < deg2rad g.angle := by
      have hstep : 0 < (g.angle + 180) * Real.pi := mul_pos (by linarith) hpi
      have hexp : (g.angle + 180) * Real.pi = g.angle * Real.pi + 180 * Real.pi := by ring
      rw [hexp] at hstep
      rw [deg2rad]
      linarith
    have hsin : Real.sin (deg2rad g.angle) < 0 :=
      Real.sin_neg_of_neg_of_neg_pi_lt hθlt hθgt
    obtain ⟨n, hn⟩ := hdiv (901 / (900 * (-Real.sin (deg2rad g.angle))))
    obtain ⟨_, _, _, htip, hbd⟩ := key (n+1)
    have h2 := (hbd (by omega)).1
    have hyeq : (iterUpd (startDrill g) dts (n+1)).drill_tip.2 =
        Real.sin (deg2rad g.angle) * (900 * sumTo dts (n+1)) := by
      rw [htip]
    rw [hyeq, MAX_DEPTH_WORLD] at h2
    have hmono : sumTo dts n ≤ sumTo dts (n+1) := by
      rw [sumTo_succ]
      linarith [hpos n]
    have hden : 0 < 900 * (-Real.sin (deg2rad g.angle)) := by linarith
    have hM : 901 / (900 * (-Real.sin (deg2rad g.angle))) ≤ sumTo dts (n+1) :=
      le_trans hn hmono
    have h901 := (div_le_iff₀ hden).mp hM
    nlinarith [h2, h901]
  · have hθ : deg2rad g.angle = 0 := by
      rw [deg2rad, heq]
      ring
    have hcos : Real.cos (deg2rad g.angle) = 1 := by rw [hθ, Real.cos_zero]
    obtain ⟨n, hn⟩ := hdiv ((1101 - g.origin_x) / 900)
    obtain ⟨_, _, _, htip, hbd⟩ := key (n+1)
    have h2 := (hbd (by omega)).2
    have hxeq : (iterUpd (startDrill g) dts (n+1)).drill_tip.1 =
        g.origin_x + Real.cos (deg2rad g.angle) * (900 * sumTo dts (n+1)) := by
      rw [htip]
    rw [hxeq, hcos, one_mul] at h2
    have hmono : sumTo dts n ≤ sumTo dts (n+1) := by
      rw [sumTo_succ]
      linarith [hpos n]
    have hM : (1101 - g.origin_x) / 900 ≤ sumTo dts (n+1) := le_trans hn hmono
    have h1101 := (div_le_iff₀ (by norm_num : (0:ℝ) < 900)).mp hM
    linarith

/-- Witness for the amended C4 at a concrete vertical aim state with unit
frame deltas. -/
theorem drill_termination_amended_witness :
    gA4.state = GState.aim ∧ gA4.drill_speed_mps = 900 ∧
    (-180 : ℝ) < gA4.angle ∧ gA4.angle ≤ 0 ∧
    (∀ i : ℕ, 0 < ((fun _ => (1:ℝ)) i)) ∧
    (∀ M : ℝ, ∃ n, M ≤ sumTo (fun _ => (1:ℝ)) n) ∧
    (∃ n, (iterUpd (startDrill gA4) (fun _ => (1:ℝ)) n).state = GState.win ∨
          (iterUpd (startDrill gA4) (fun _ => (1:ℝ)) n).state = GState.lose) := by
  have h1 : gA4.state = GState.aim := rfl
  have h2 : gA4.drill_speed_mps = 900 := rfl
  have h3 : (-180 : ℝ) < gA4.angle := by
    show (-180 : ℝ) < -90
    norm_num
  have h4 : gA4.angle ≤ 0 := by
    show (-90 : ℝ) ≤ 0
    norm_num
  have h5 : ∀ i : ℕ, 0 < ((fun _ => (1:ℝ)) i) := fun _ => by norm_num
  have h6 : ∀ M : ℝ, ∃ n, M ≤ sumTo (fun _ => (1:ℝ)) n := by
    intro M
    obtain ⟨n, hn⟩ := exists_nat_ge M
    refine ⟨n, ?_⟩
    rw [sumTo, Finset.sum_const]
    simpa using hn
  exact ⟨h1, h2, h3, h4, h5, h6, drill_termination_amended gA4 h1 h2 h3 h4 _ h5 h6⟩

/-- Counterexample to claim C4 as stated: at angle exactly -180 the tip
drills straight left, the right-side lateral bound and the depth bound are
never crossed and the target is never hit, so the game stays in the drilling
state forever even with unit frame deltas. -/
theorem drill_termination_ce :
    gCE.state = GState.aim ∧ gCE.drill_speed_mps = 900 ∧
    (-180 : ℝ) ≤ gCE.angle ∧ gCE.angle ≤ 0 ∧
    100 ≤ gCE.origin_x ∧ gCE.origin_x ≤ 900 ∧
    250 ≤ gCE.target_x ∧ gCE.target_x ≤ 900 ∧
    (-900 : ℝ) ≤ gCE.target_y ∧ gCE.target_y ≤ -500 ∧
    5 ≤ gCE.target_radius ∧ gCE.target_radius ≤ 20 ∧
    (∀ i : ℕ, 0 < ((fun _ => (1:ℝ)) i)) ∧
    (∀ n : ℕ, ¬((iterUpd (startDrill gCE) (fun _ => (1:ℝ)) n).state = GState.win ∨
               (iterUpd (startDrill gCE) (fun _ => (1:ℝ)) n).state = GState.lose)) := by
  have hcos : Real.cos (deg2rad (-180)) = -1 := by
    rw [show deg2rad (-180) = -Real.pi by rw [deg2rad]; ring, Real.cos_neg, Real.cos_pi]
  have hsin : Real.sin (deg2rad (-180)) = 0 := by
    rw [show deg2rad (-180) = -Real.pi by rw [deg2rad]; ring, Real.sin_neg, Real.sin_pi,
      neg_zero]
  have hdiscCE : ∀ x : ℝ, icDisc (x, (0:ℝ)) (x - 900, (0:ℝ)) ((250:ℝ), (-700:ℝ)) 10 < 0 := by
    intro x
    simp [icDisc, icA, icB, icC]
    ring_nf
    norm_num
  have key : ∀ n : ℕ,
      (iterUpd (startDrill gCE) (fun _ => (1:ℝ)) n).state = GState.drilling ∧
      (iterUpd (startDrill gCE) (fun _ => (1:ℝ)) n).angle = -180 ∧
      (iterUpd (startDrill gCE) (fun _ => (1:ℝ)) n).drill_speed_mps = 900 ∧
      (iterUpd (startDrill gCE) (fun _ => (1:ℝ)) n).target_x = 250 ∧
      (iterUpd (startDrill gCE) (fun _ => (1:ℝ)) n).target_y = -700 ∧
      (iterUpd (startDrill gCE) (fun _ => (1:ℝ)) n).target_radius = 10 ∧
      (iterUpd (startDrill gCE) (fun _ => (1:ℝ)) n).drill_tip =
        ((500 : ℝ) - 900 * (n:ℝ), (0:ℝ)) := by
    intro n
    induction n with
    | zero =>
        refine ⟨rfl, rfl, rfl, rfl, rfl, rfl, ?_⟩
        show ((500 : ℝ), (0 : ℝ)) = ((500 : ℝ) - 900 * ((0:ℕ):ℝ), (0:ℝ))
        norm_num
    | succ n ih =>
        obtain ⟨ihs, iha, ihsp, ihtx, ihty, ihtr, ihtip⟩ := ih
        have hit : iterUpd (startDrill gCE) (fun _ => (1:ℝ)) (n+1) =
            update (iterUpd (startDrill gCE) (fun _ => (1:ℝ)) n) 1 := rfl
        have hx : (iterUpd (startDrill gCE) (fun _ => (1:ℝ)) n).drill_tip.1 =
            500 - 900 * (n:ℝ) := by rw [ihtip]
        have hy : (iterUpd (startDrill gCE) (fun _ => (1:ℝ)) n).drill_tip.2 = 0 := by
          rw [ihtip]
        have hnext : updNext (iterUpd (startDrill gCE) (fun _ => (1:ℝ)) n) 1 =
            ((500 - 900 * (n:ℝ)) - 900, (0:ℝ)) := by
          rw [updNext, iha, ihsp, hx, hy, hcos, hsin, Prod.mk.injEq]
          constructor
          · ring
          · ring
        have hlci : lciOf (iterUpd (startDrill gCE) (fun _ => (1:ℝ)) n) 1 = none := by
          rw [lciOf, hnext, ihtip, ihtx, ihty, ihtr]
          exact lci_disc_neg _ _ _ _ (hdiscCE (500 - 900 * (n:ℝ)))
        rcases update_cases (iterUpd (startDrill gCE) (fun _ => (1:ℝ)) n) 1 with
          ⟨hns, _⟩ | ⟨_, ipt, hl, _⟩ | ⟨_, _, he⟩
        · exact absurd ihs hns
        · exact Option.noConfusion (hlci ▸ hl)
        · have hb : ¬((updNext (iterUpd (startDrill gCE) (fun _ => (1:ℝ)) n) 1).2 ≤
              MAX_DEPTH_WORLD ∨
              (updNext (iterUpd (startDrill gCE) (fun _ => (1:ℝ)) n) 1).1 > 1100) := by
            rw [hnext, not_or, MAX_DEPTH_WORLD]
            constructor
            · norm_num
            · have hcast : (0:ℝ) ≤ (n:ℝ) := Nat.cast_nonneg n
              apply not_lt.mpr
              show (500 : ℝ) - 900 * (n:ℝ) - 900 ≤ 1100
              linarith
          rw [hit, he, missStep_stay _ _ hb]
          refine ⟨ihs, iha, ihsp, ihtx, ihty, ihtr, ?_⟩
          show updNext (iterUpd (startDrill gCE) (fun _ => (1:ℝ)) n) 1 =
            ((500 : ℝ) - 900 * (((n:ℕ) + 1 : ℕ):ℝ), (0:ℝ))
          rw [hnext, Prod.mk.injEq]
          constructor
          · push_cast
            ring
          · rfl
  refine ⟨rfl, rfl, le_refl _, by show (-180:ℝ) ≤ 0; norm_num,
    by show (100:ℝ) ≤ 500; norm_num, by show (500:ℝ) ≤ 900; norm_num,
    le_refl _, by show (250:ℝ) ≤ 900; norm_num,
    by show (-900:ℝ) ≤ -700; norm_num, by show (-700:ℝ) ≤ -500; norm_num,
    by show (5:ℝ) ≤ 10; norm_num, by show (10:ℝ) ≤ 20; norm_num,
    fun _ => by norm_num, ?_⟩
  intro n h
  obtain ⟨hst, _⟩ := key n
  rcases h with hw | hl
  · exact GState.noConfusion (hst.symm.trans hw)
  · exact GState.noConfusion (hst.symm.trans hl)

end OrientationGame
